import Mathlib

/-!
# Verification of the TableSession screen (`src/app/(tabs)/index.tsx`)

Shallow embedding of the single React component of the repository.  The
component keeps five pieces of state (`data`, `columns`, `searchQuery`,
`sortConfig`, `loading`) and four operations: `pickFile`, `processFile`,
`handleSort`, `filteredData` / `exportToCSV`.  All of them are embedded
below as pure Lean functions over an explicit `SessionState`.

Modelling conventions:
* a spreadsheet cell is a loosely typed scalar, string or number
  (`Cell`); numeric cells are modelled with exact integers;
* the JavaScript value `undefined` (produced by out-of-range array
  indexing and by `jsonData[0]` on an empty grid) is modelled as `none`
  of an `Option`;
* the external spreadsheet codec (`XLSX.read` / `sheet_to_json`) is a
  collaborator: its outcome enters `processFile` as an
  `Except String (List (List Cell))`, the `error` case standing for the
  exception the codec throws on unparseable bytes;
* `String.prototype.localeCompare` is locale dependent, so it enters
  `handleSort` as an explicit integer-valued comparison parameter `lc`;
* `Array.prototype.sort` (stable since ES2019) is modelled by
  `List.mergeSort` on the comparator taken from the source.
-/

/-- A spreadsheet cell as delivered by the parsing collaborator:
a loosely typed scalar, either a string or a number. -/
inductive Cell where
  | str (s : String)
  | num (n : Int)
deriving DecidableEq

/-- JavaScript `String(cell)` on a defined cell. -/
def cellToString : Cell → String
  | .str s => s
  | .num n => toString n

/-- JavaScript `String(v)` where `v` may be `undefined`
(e.g. the result of reading an array out of range). -/
def jsStringOpt : Option Cell → String
  | some c => cellToString c
  | none => "undefined"

/-- JavaScript `toLowerCase`, applied character by character. -/
def jsToLower (s : String) : String := ⟨s.data.map Char.toLower⟩

/-- Occurrence of `pat` inside a list of characters, as decided by
JavaScript `String.prototype.includes`. -/
def charsIncludes (pat : List Char) : List Char → Bool
  | [] => pat.isEmpty
  | c :: rest => pat.isPrefixOf (c :: rest) || charsIncludes pat rest

/-- JavaScript `s.includes(pat)`. -/
def jsIncludes (s pat : String) : Bool := charsIncludes pat.data s.data

/-- The React state of the component (`useState` hooks, lines 11-15 of
the source).  `columns = none` models the JavaScript value `undefined`
stored by `setColumns` when the parsed grid has no rows; `sortKey` and
`sortAsc` are the two fields of `sortConfig` (`key`, `direction`), with
`sortAsc = true` standing for direction `asc`. -/
structure SessionState where
  data : List (List Cell)
  columns : Option (List Cell)
  searchQuery : String
  sortKey : Option Cell
  sortAsc : Bool
  loading : Bool
deriving DecidableEq

/-- The initial hook values: empty table, empty query, no active sort,
not loading. -/
def initialState : SessionState :=
  { data := []
    columns := some []
    searchQuery := ""
    sortKey := none
    sortAsc := true
    loading := false }

/-- `processFile` (source lines 37-51).  The argument is the outcome of
the spreadsheet codec chain (`XLSX.read`, first-sheet lookup,
`sheet_to_json`): `ok jsonData` is the decoded 2-D grid, `error` the
exception it throws.  On success the code stores `jsonData[0]`
(`undefined` when the grid is empty, modelled by `head?`) as columns and
`jsonData.slice(1)` as rows; nothing else is written, in particular the
filter query and the sort configuration are not touched.  On failure the
catch block logs the error (returned as the second component) and leaves
the whole state untouched. -/
def processFile (s : SessionState) (parsed : Except String (List (List Cell))) :
    SessionState × Option String :=
  match parsed with
  | .error e => (s, some e)
  | .ok jsonData =>
    ({ s with columns := jsonData.head?, data := jsonData.tail }, none)

/-- Predicate of the filter (source lines 75-79): a row passes when some
cell satisfies `String(cell).toLowerCase().includes(searchQuery.toLowerCase())`. -/
def rowMatches (q : String) (row : List Cell) : Bool :=
  row.any fun cell => jsIncludes (jsToLower (cellToString cell)) (jsToLower q)

/-- `filteredData` (source lines 75-79): the projection of the current
dataset through the filter. -/
def filteredData (s : SessionState) : List (List Cell) :=
  s.data.filter (rowMatches s.searchQuery)

theorem charsIncludes_nil (l : List Char) : charsIncludes [] l = true := by
  cases l with
  | nil => rfl
  | cons c rest => simp [charsIncludes, List.isPrefixOf]

theorem jsIncludes_empty_pattern (s : String) : jsIncludes s (jsToLower "") = true := by
  have h : (jsToLower "").data = [] := rfl
  simp [jsIncludes, h, charsIncludes_nil]

theorem rowMatches_empty_query (row : List Cell) (hrow : row ≠ []) :
    rowMatches "" row = true := by
  cases row with
  | nil => exact absurd rfl hrow
  | cons c rest =>
    simp only [rowMatches, List.any_cons, Bool.or_eq_true]
    exact Or.inl (jsIncludes_empty_pattern _)

theorem rowMatches_nil (q : String) : rowMatches q [] = false := rfl

/-- JavaScript `Array.prototype.indexOf`: position of the first strictly
equal element, `-1` when absent. -/
def jsIndexOf (l : List Cell) (x : Cell) : Int :=
  match l.indexOf? x with
  | some i => (i : Int)
  | none => -1

/-- JavaScript indexing `row[i]`: `undefined` (here `none`) for any
index outside the array, including `-1`. -/
def jsGet (row : List Cell) (i : Int) : Option Cell :=
  if i < 0 then none else row.get? i.toNat

/-- The `typeof aValue === number && typeof bValue === number` test of
the sort comparator. -/
def bothNum : Option Cell → Option Cell → Bool
  | some (.num _), some (.num _) => true
  | _, _ => false

/-- The comparator body of `handleSort` (source lines 60-70): two
numbers are compared by subtraction, any other pair through
`localeCompare` (the parameter `lc`) on the `String(...)` forms; a
descending direction swaps the arguments. -/
def jsCompare (lc : String → String → Int) (asc : Bool) (aValue bValue : Option Cell) : Int :=
  match aValue, bValue with
  | some (.num a), some (.num b) => if asc then a - b else b - a
  | _, _ =>
    if asc then lc (jsStringOpt aValue) (jsStringOpt bValue)
    else lc (jsStringOpt bValue) (jsStringOpt aValue)

/-- The `direction` local of `handleSort` (source lines 54-57):
ascending by default, descending exactly when the clicked column is the
active one and the current direction is ascending. -/
def newDirection (s : SessionState) (key : Cell) : Bool :=
  !(s.sortKey == some key && s.sortAsc)

/-- The comparator applied to two rows: each row is read at the index of
the clicked column inside `columns` (source lines 61-62). -/
def sortComparator (lc : String → String → Int) (asc : Bool) (idx : Int)
    (a b : List Cell) : Int :=
  jsCompare lc asc (jsGet a idx) (jsGet b idx)

/-- `handleSort` (source lines 53-73).  It first stores the new sort
configuration, then replaces `data` with a stably sorted copy.  When
`columns` is `undefined` (`none`), `columns.indexOf` throws before
`setData`, so only the sort configuration changes. -/
def handleSort (lc : String → String → Int) (s : SessionState) (key : Cell) : SessionState :=
  let asc := newDirection s key
  match s.columns with
  | none => { s with sortKey := some key, sortAsc := asc }
  | some cols =>
    { s with
        sortKey := some key
        sortAsc := asc
        data := s.data.mergeSort fun a b =>
          decide (sortComparator lc asc (jsIndexOf cols key) a b ≤ 0) }

theorem merge_congr {α : Type} {le1 le2 : α → α → Bool} :
    ∀ (xs ys : List α),
      (∀ a ∈ xs, ∀ b ∈ ys, le1 a b = le2 a b) →
      List.merge xs ys le1 = List.merge xs ys le2
  | [], ys, _ => by simp
  | x :: xs, [], _ => by simp
  | x :: xs, y :: ys, h => by
    rw [List.cons_merge_cons, List.cons_merge_cons,
      ← h x (List.mem_cons_self x xs) y (List.mem_cons_self y ys)]
    cases hc : le1 x y with
    | true =>
      simp only [if_true]
      rw [merge_congr xs (y :: ys) fun a ha b hb => h a (List.mem_cons_of_mem x ha) b hb]
    | false =>
      simp only [Bool.false_eq_true, if_false]
      rw [merge_congr (x :: xs) ys fun a ha b hb => h a ha b (List.mem_cons_of_mem y hb)]
termination_by xs ys => xs.length + ys.length

theorem mergeSort_congr {α : Type} {le1 le2 : α → α → Bool} :
    ∀ (l : List α), (∀ a ∈ l, ∀ b ∈ l, le1 a b = le2 a b) →
      l.mergeSort le1 = l.mergeSort le2
  | [], _ => by simp
  | [a], _ => by simp
  | a :: b :: xs, h => by
    have h1 : (List.splitInTwo ⟨a :: b :: xs, rfl⟩).1.1.length < xs.length + 1 + 1 := by
      simp [List.splitInTwo_fst]; omega
    have h2 : (List.splitInTwo ⟨a :: b :: xs, rfl⟩).2.1.length < xs.length + 1 + 1 := by
      simp [List.splitInTwo_snd]; omega
    have happ : (List.splitInTwo ⟨a :: b :: xs, rfl⟩).1.1
        ++ (List.splitInTwo ⟨a :: b :: xs, rfl⟩).2.1 = a :: b :: xs :=
      List.splitInTwo_fst_append_splitInTwo_snd ⟨a :: b :: xs, rfl⟩
    have hmem1 : ∀ x ∈ (List.splitInTwo ⟨a :: b :: xs, rfl⟩).1.1, x ∈ a :: b :: xs := by
      intro x hx
      rw [← happ]
      exact List.mem_append_left _ hx
    have hmem2 : ∀ x ∈ (List.splitInTwo ⟨a :: b :: xs, rfl⟩).2.1, x ∈ a :: b :: xs := by
      intro x hx
      rw [← happ]
      exact List.mem_append_right _ hx
    rw [List.mergeSort, List.mergeSort]
    rw [mergeSort_congr (List.splitInTwo ⟨a :: b :: xs, rfl⟩).1.1
      fun u hu v hv => h u (hmem1 u hu) v (hmem1 v hv)]
    rw [mergeSort_congr (List.splitInTwo ⟨a :: b :: xs, rfl⟩).2.1
      fun u hu v hv => h u (hmem2 u hu) v (hmem2 v hv)]
    exact merge_congr _ _ fun u hu v hv =>
      h u (hmem1 u (List.mem_mergeSort.mp hu)) v (hmem2 v (List.mem_mergeSort.mp hv))
termination_by l => l.length


/-- Whether a (possibly missing) cell is a number. -/
def isNumCell : Option Cell → Bool
  | some (.num _) => true
  | _ => false

/-- Numeric value of a key cell, defaulting to `0`; it agrees with the
actual value whenever `isNumCell` holds. -/
def numValD : Option Cell → Int
  | some (.num n) => n
  | _ => 0

/-- A globally consistent comparator agreeing with the sort comparator
on rows whose key cell is numeric. -/
def leNumKey (asc : Bool) (idx : Int) (a b : List Cell) : Bool :=
  decide ((if asc then numValD (jsGet a idx) - numValD (jsGet b idx)
    else numValD (jsGet b idx) - numValD (jsGet a idx)) ≤ 0)

/-- A globally consistent comparator agreeing with the sort comparator
on rows whose key cell is not numeric, built from the locale
comparison. -/
def leStrKey (lc : String → String → Int) (asc : Bool) (idx : Int) (a b : List Cell) : Bool :=
  decide ((if asc then lc (jsStringOpt (jsGet a idx)) (jsStringOpt (jsGet b idx))
    else lc (jsStringOpt (jsGet b idx)) (jsStringOpt (jsGet a idx))) ≤ 0)

theorem jsCompare_num (lc : String → String → Int) (asc : Bool) (x y : Int) :
    jsCompare lc asc (some (.num x)) (some (.num y)) = if asc then x - y else y - x := rfl

theorem jsCompare_not_num (lc : String → String → Int) (asc : Bool)
    (u v : Option Cell) (h : bothNum u v = false) :
    jsCompare lc asc u v =
      if asc then lc (jsStringOpt u) (jsStringOpt v)
      else lc (jsStringOpt v) (jsStringOpt u) := by
  match u, v with
  | some (.num a), some (.num b) => simp [bothNum] at h
  | none, _ => rfl
  | some (.str _), _ => rfl
  | some (.num _), none => rfl
  | some (.num _), some (.str _) => rfl

theorem newDirection_eq (s : SessionState) (key : Cell) :
    newDirection s key = (if s.sortKey = some key then !s.sortAsc else true) := by
  unfold newDirection
  by_cases hk : s.sortKey = some key
  · simp [hk]
  · simp [hk]

/-- Claim C3: a sort request stores the clicked column as the active
sort column; when that column was already the active one the direction
flips (ascending becomes descending and descending becomes ascending),
otherwise the direction becomes ascending. -/
theorem handleSort_toggles_direction (lc : String → String → Int)
    (s : SessionState) (key : Cell) :
    (handleSort lc s key).sortKey = some key
    ∧ (handleSort lc s key).sortAsc = (if s.sortKey = some key then !s.sortAsc else true) := by
  rw [← newDirection_eq]
  cases hc : s.columns with
  | none => simp [handleSort, hc]
  | some cols => simp [handleSort, hc]

theorem leNumKey_trans (asc : Bool) (idx : Int) :
    ∀ a b c : List Cell, leNumKey asc idx a b → leNumKey asc idx b c → leNumKey asc idx a c := by
  intro a b c h1 h2
  simp only [leNumKey, decide_eq_true_eq] at h1 h2 ⊢
  cases asc <;> simp_all <;> omega

theorem leNumKey_total (asc : Bool) (idx : Int) :
    ∀ a b : List Cell, leNumKey asc idx a b || leNumKey asc idx b a := by
  intro a b
  simp only [leNumKey, Bool.or_eq_true, decide_eq_true_eq]
  cases asc <;> simp <;> omega

theorem leStrKey_trans (lc : String → String → Int)
    (htrans : ∀ a b c : String, lc a b ≤ 0 → lc b c ≤ 0 → lc a c ≤ 0)
    (asc : Bool) (idx : Int) :
    ∀ a b c : List Cell, leStrKey lc asc idx a b → leStrKey lc asc idx b c →
      leStrKey lc asc idx a c := by
  intro a b c h1 h2
  simp only [leStrKey, decide_eq_true_eq] at h1 h2 ⊢
  cases asc with
  | false =>
    simp only [if_false, Bool.false_eq_true] at h1 h2 ⊢
    exact htrans _ _ _ h2 h1
  | true =>
    simp only [if_true] at h1 h2 ⊢
    exact htrans _ _ _ h1 h2

theorem leStrKey_total (lc : String → String → Int)
    (htotal : ∀ a b : String, lc a b ≤ 0 ∨ lc b a ≤ 0)
    (asc : Bool) (idx : Int) :
    ∀ a b : List Cell, leStrKey lc asc idx a b || leStrKey lc asc idx b a := by
  intro a b
  simp only [leStrKey, Bool.or_eq_true, decide_eq_true_eq]
  cases asc with
  | false => simpa using (htotal (jsStringOpt (jsGet b idx)) (jsStringOpt (jsGet a idx)))
  | true => simpa using (htotal (jsStringOpt (jsGet a idx)) (jsStringOpt (jsGet b idx)))

theorem isNumCell_eq_true_iff (u : Option Cell) :
    isNumCell u = true ↔ ∃ n : Int, u = some (.num n) := by
  match u with
  | some (.num n) => simp [isNumCell]
  | some (.str t) => simp [isNumCell]
  | none => simp [isNumCell]

theorem bothNum_eq_false_left (u v : Option Cell) (h : isNumCell u = false) :
    bothNum u v = false := by
  match u, v with
  | some (.num _), _ => simp [isNumCell] at h
  | some (.str _), _ => rfl
  | none, _ => rfl

theorem comparator_eq_leNumKey (lc : String → String → Int) (asc : Bool) (idx : Int)
    (l : List (List Cell)) (hnum : ∀ r ∈ l, isNumCell (jsGet r idx) = true) :
    ∀ a ∈ l, ∀ b ∈ l,
      (decide (sortComparator lc asc idx a b ≤ 0)) = leNumKey asc idx a b := by
  intro a ha b hb
  obtain ⟨x, hx⟩ := (isNumCell_eq_true_iff _).mp (hnum a ha)
  obtain ⟨y, hy⟩ := (isNumCell_eq_true_iff _).mp (hnum b hb)
  simp [sortComparator, jsCompare, leNumKey, numValD, hx, hy]

theorem comparator_eq_leStrKey (lc : String → String → Int) (asc : Bool) (idx : Int)
    (l : List (List Cell)) (hstr : ∀ r ∈ l, isNumCell (jsGet r idx) = false) :
    ∀ a ∈ l, ∀ b ∈ l,
      (decide (sortComparator lc asc idx a b ≤ 0)) = leStrKey lc asc idx a b := by
  intro a ha b hb
  rw [sortComparator, jsCompare_not_num lc asc _ _ (bothNum_eq_false_left _ _ (hstr a ha))]
  rw [leStrKey]

theorem tie_leNumKey (lc : String → String → Int) (asc : Bool) (idx : Int) (a b : List Cell)
    (hxa : isNumCell (jsGet a idx) = true) (hxb : isNumCell (jsGet b idx) = true)
    (htie : sortComparator lc asc idx a b = 0) : leNumKey asc idx a b = true := by
  obtain ⟨x, hx⟩ := (isNumCell_eq_true_iff _).mp hxa
  obtain ⟨y, hy⟩ := (isNumCell_eq_true_iff _).mp hxb
  rw [sortComparator, hx, hy, jsCompare_num] at htie
  simp only [leNumKey, numValD, hx, hy, decide_eq_true_eq]
  cases asc <;> simp_all

theorem tie_leStrKey (lc : String → String → Int) (asc : Bool) (idx : Int) (a b : List Cell)
    (hxa : isNumCell (jsGet a idx) = false)
    (htie : sortComparator lc asc idx a b = 0) : leStrKey lc asc idx a b = true := by
  rw [sortComparator, jsCompare_not_num lc asc _ _ (bothNum_eq_false_left _ _ hxa)] at htie
  simp only [leStrKey, decide_eq_true_eq]
  cases asc <;> simp_all

theorem handleSort_data_sorted (lc : String → String → Int) (s : SessionState)
    (cols : List Cell) (key : Cell) (hc : s.columns = some cols) :
    (handleSort lc s key).data = s.data.mergeSort fun u v =>
      decide (sortComparator lc (newDirection s key) (jsIndexOf cols key) u v ≤ 0) := by
  simp [handleSort, hc]

theorem handleSort_data_eq_leNumKey (lc : String → String → Int) (s : SessionState)
    (cols : List Cell) (key : Cell) (hc : s.columns = some cols)
    (hnum : ∀ r ∈ s.data, isNumCell (jsGet r (jsIndexOf cols key)) = true) :
    (handleSort lc s key).data
      = s.data.mergeSort (leNumKey (newDirection s key) (jsIndexOf cols key)) := by
  rw [handleSort_data_sorted lc s cols key hc]
  exact @mergeSort_congr (List Cell)
    (fun u v => decide (sortComparator lc (newDirection s key) (jsIndexOf cols key) u v ≤ 0))
    (leNumKey (newDirection s key) (jsIndexOf cols key)) s.data
    (comparator_eq_leNumKey lc (newDirection s key) (jsIndexOf cols key) s.data hnum)

theorem handleSort_data_eq_leStrKey (lc : String → String → Int) (s : SessionState)
    (cols : List Cell) (key : Cell) (hc : s.columns = some cols)
    (hstr : ∀ r ∈ s.data, isNumCell (jsGet r (jsIndexOf cols key)) = false) :
    (handleSort lc s key).data
      = s.data.mergeSort (leStrKey lc (newDirection s key) (jsIndexOf cols key)) := by
  rw [handleSort_data_sorted lc s cols key hc]
  exact @mergeSort_congr (List Cell)
    (fun u v => decide (sortComparator lc (newDirection s key) (jsIndexOf cols key) u v ≤ 0))
    (leStrKey lc (newDirection s key) (jsIndexOf cols key)) s.data
    (comparator_eq_leStrKey lc (newDirection s key) (jsIndexOf cols key) s.data hstr)

/-- Claim C4: in the sort comparator, two numeric cell values are
compared numerically (by subtraction, whose sign matches the numeric
order), and any other pair is compared by applying the locale
comparison `lc` to the string forms of the two values; and the sort is
stable: two rows whose key cells compare equal keep their relative
order, stated here for the two homogeneous key situations (every key
cell numeric, or no key cell numeric) in which the comparator is a
consistent comparison function, as the ECMAScript specification
requires for `Array.prototype.sort` to have a defined result. -/
theorem sort_numeric_else_locale_and_stable (lc : String → String → Int)
    (htrans : ∀ a b c : String, lc a b ≤ 0 → lc b c ≤ 0 → lc a c ≤ 0)
    (htotal : ∀ a b : String, lc a b ≤ 0 ∨ lc b a ≤ 0) :
    (∀ (x y : Int) (asc : Bool),
        jsCompare lc asc (some (.num x)) (some (.num y)) = (if asc then x - y else y - x))
    ∧ (∀ x y : Int, jsCompare lc true (some (.num x)) (some (.num y)) < 0 ↔ x < y)
    ∧ (∀ (u v : Option Cell), bothNum u v = false → ∀ asc : Bool,
        jsCompare lc asc u v =
          if asc then lc (jsStringOpt u) (jsStringOpt v)
          else lc (jsStringOpt v) (jsStringOpt u))
    ∧ (∀ (s : SessionState) (cols : List Cell) (key : Cell) (a b : List Cell),
        s.columns = some cols →
        (∀ r ∈ s.data, isNumCell (jsGet r (jsIndexOf cols key)) = true) →
        List.Sublist [a, b] s.data →
        sortComparator lc (newDirection s key) (jsIndexOf cols key) a b = 0 →
        List.Sublist [a, b] ((handleSort lc s key).data))
    ∧ (∀ (s : SessionState) (cols : List Cell) (key : Cell) (a b : List Cell),
        s.columns = some cols →
        (∀ r ∈ s.data, isNumCell (jsGet r (jsIndexOf cols key)) = false) →
        List.Sublist [a, b] s.data →
        sortComparator lc (newDirection s key) (jsIndexOf cols key) a b = 0 →
        List.Sublist [a, b] ((handleSort lc s key).data)) := by
  refine ⟨fun x y asc => jsCompare_num lc asc x y, ?_,
    fun u v h asc => jsCompare_not_num lc asc u v h, ?_, ?_⟩
  · intro x y
    rw [jsCompare_num]
    simp only [if_true]
    omega
  · intro s cols key a b hc hnum hsub htie
    have ha : a ∈ s.data := hsub.subset (by simp)
    have hb : b ∈ s.data := hsub.subset (by simp)
    rw [handleSort_data_eq_leNumKey lc s cols key hc hnum]
    exact List.pair_sublist_mergeSort (leNumKey_trans _ _) (leNumKey_total _ _)
      (tie_leNumKey lc _ _ a b (hnum a ha) (hnum b hb) htie) hsub
  · intro s cols key a b hc hstr hsub htie
    have ha : a ∈ s.data := hsub.subset (by simp)
    rw [handleSort_data_eq_leStrKey lc s cols key hc hstr]
    exact List.pair_sublist_mergeSort (leStrKey_trans lc htrans _ _) (leStrKey_total lc htotal _ _)
      (tie_leStrKey lc _ _ a b (hstr a ha) htie) hsub

/-- A state as left by earlier interactions: a dataset is loaded, a
filter query is set, and a descending sort is active on column A. -/
def busyFilterSortState : SessionState :=
  { data := [[.str "old"]]
    columns := some [.str "A"]
    searchQuery := "ann"
    sortKey := some (.str "A")
    sortAsc := false
    loading := false }

/-- Claim C1 counterexample: after a successful load of a new dataset
the filter query is still the old one (not the empty query) and the sort
state still has an active column (not "no active sort"): `processFile`
never writes `searchQuery` or `sortConfig`. -/
theorem load_does_not_reset_counterexample :
    (processFile busyFilterSortState (.ok [[.str "H"], [.str "v"]])).1.searchQuery ≠ ""
    ∧ (processFile busyFilterSortState (.ok [[.str "H"], [.str "v"]])).1.sortKey ≠ none := by
  constructor
  · decide
  · decide

/-- Claim C1 (amended): a successful load replaces only the dataset;
the filter query and the whole sort state keep the values they had
before the load. -/
theorem load_preserves_filter_and_sort (s : SessionState) (g : List (List Cell)) :
    (processFile s (.ok g)).1.searchQuery = s.searchQuery
    ∧ (processFile s (.ok g)).1.sortKey = s.sortKey
    ∧ (processFile s (.ok g)).1.sortAsc = s.sortAsc :=
  ⟨rfl, rfl, rfl⟩

/-- Claim C2: when the spreadsheet codec rejects the input, the load
reports the parse error (the catch block logs it) and the session state,
in particular the dataset (columns and rows), is exactly what it was
before the call — the previously loaded dataset, or the initial empty
one when no load had succeeded yet. -/
theorem load_error_reports_and_keeps_dataset (s : SessionState) (e : String) :
    (processFile s (.error e)).1.columns = s.columns
    ∧ (processFile s (.error e)).1.data = s.data
    ∧ (processFile s (.error e)).1 = s
    ∧ (processFile s (.error e)).2 = some e :=
  ⟨rfl, rfl, rfl, rfl⟩

/-- Claim C5: a row of the dataset is in the projection exactly when at
least one of its cells has a string form that contains the query as a
case-insensitive substring; rows without such a cell are exactly the
excluded ones. -/
theorem projection_membership (s : SessionState) (row : List Cell) (h : row ∈ s.data) :
    row ∈ filteredData s ↔ ∃ cell ∈ row,
      jsIncludes (jsToLower (cellToString cell)) (jsToLower s.searchQuery) = true := by
  simp [filteredData, List.mem_filter, h, rowMatches, List.any_eq_true]

/-- Claim C7 counterexample: loading a grid whose body contains a
zero-cell row and reading the projection with the empty query and no
active sort does not return the loaded body: the zero-cell row is
dropped by the filter. -/
theorem projection_after_load_counterexample :
    filteredData (processFile initialState (.ok [[.str "H"], []])).1
      ≠ [[.str "H"], ([] : List Cell)].tail := by
  decide

/-- Claim C7 (amended): immediately after a successful load, with the
filter query empty and no sort active, the projection returns the body
rows of the loaded grid unchanged and in load order, provided every body
row has at least one cell (zero-cell rows are dropped by the filter). -/
theorem projection_after_load (s : SessionState) (g : List (List Cell))
    (hq : s.searchQuery = "") (_hk : s.sortKey = none)
    (hrows : ∀ r ∈ g.tail, r ≠ []) :
    filteredData (processFile s (.ok g)).1 = g.tail := by
  show List.filter (rowMatches s.searchQuery) g.tail = g.tail
  rw [hq]
  exact List.filter_eq_self.mpr fun r hr => rowMatches_empty_query r (hrows r hr)

/-- Claim C8, evaluated at the failing input: a parse that yields a grid
with no rows does not leave an empty columns list — `jsonData[0]` is the
JavaScript value `undefined` (modelled by `none`), which is stored into
`columns` despite the `string[]` type of that state hook; the body does
become empty.  The next render then throws on `columns.map`, so the
screen fails instead of rendering nothing. -/
theorem load_empty_grid_columns_undefined :
    (processFile initialState (.ok [])).1.columns = none
    ∧ (processFile initialState (.ok [])).1.columns ≠ some []
    ∧ (processFile initialState (.ok [])).1.data = [] := by
  refine ⟨rfl, ?_, rfl⟩
  decide

/-- JavaScript `Array.prototype.join(sep)` on an array of strings:
empty string for the empty array, otherwise the elements interleaved
with the separator. -/
def jsJoin (sep : String) : List String → String
  | [] => ""
  | [x] => x
  | x :: y :: xs => x ++ sep ++ jsJoin sep (y :: xs)

/-- The `csvContent` expression of `exportToCSV` (source lines 83-86):
first line the column names joined by commas, then one line per
projected row with its cells joined by commas, all lines joined by
newlines; no quoting or escaping.  When `columns` is `undefined`
(`none`), `columns.join` throws inside the try block and no text is
produced. -/
def csvContent (s : SessionState) : Option String :=
  match s.columns with
  | none => none
  | some cols =>
    some (jsJoin "\n" (jsJoin "," (cols.map cellToString)
      :: (filteredData s).map fun row => jsJoin "," (row.map cellToString)))

/-- Splitting a character list at every occurrence of `c`, keeping empty
fragments, as JavaScript `split` does. -/
def splitCh (c : Char) : List Char → List (List Char)
  | [] => [[]]
  | x :: xs =>
    if x = c then [] :: splitCh c xs
    else
      match splitCh c xs with
      | [] => [[x]]
      | y :: ys => (x :: y) :: ys

/-- JavaScript `text.split(sep)` for a one-character separator. -/
def jsSplit (text : String) (c : Char) : List String :=
  (splitCh c text.data).map fun l => ⟨l⟩

/-- Re-parsing an exported text: split on newline, then split every line
on comma. -/
def reParse (text : String) : List (List String) :=
  (jsSplit text '\n').map fun line => jsSplit line ','

theorem splitCh_no_sep (c : Char) : ∀ (l : List Char), c ∉ l → splitCh c l = [l]
  | [], _ => rfl
  | x :: xs, h => by
    have hx : ¬(x = c) := fun he => h (he ▸ List.mem_cons_self x xs)
    have hrec := splitCh_no_sep c xs fun hm => h (List.mem_cons_of_mem x hm)
    simp [splitCh, hx, hrec]

theorem splitCh_append (c : Char) :
    ∀ (l₁ l₂ : List Char), c ∉ l₁ → splitCh c (l₁ ++ c :: l₂) = l₁ :: splitCh c l₂
  | [], l₂, _ => by simp [splitCh]
  | x :: xs, l₂, h => by
    have hx : ¬(x = c) := fun he => h (he ▸ List.mem_cons_self x xs)
    have hrec := splitCh_append c xs l₂ fun hm => h (List.mem_cons_of_mem x hm)
    simp only [List.cons_append, splitCh, hx, if_false]
    rw [show xs.append (c :: l₂) = xs ++ c :: l₂ from rfl, hrec]

theorem jsJoin_data_cons (sep : String) (x y : String) (xs : List String) :
    (jsJoin sep (x :: y :: xs)).data = x.data ++ sep.data ++ (jsJoin sep (y :: xs)).data := by
  show (x ++ sep ++ jsJoin sep (y :: xs)).data = _
  simp [String.data_append]

theorem mem_data_jsJoin (sep : String) (ch : Char) :
    ∀ (parts : List String), ch ∈ (jsJoin sep parts).data →
      ch ∈ sep.data ∨ ∃ p ∈ parts, ch ∈ p.data
  | [], h => by simp [jsJoin] at h
  | [x], h => Or.inr ⟨x, List.mem_cons_self x [], h⟩
  | x :: y :: xs, h => by
    rw [jsJoin_data_cons, List.append_assoc] at h
    rcases List.mem_append.mp h with hx | hrest
    · exact Or.inr ⟨x, List.mem_cons_self x _, hx⟩
    · rcases List.mem_append.mp hrest with hs | hj
      · exact Or.inl hs
      · rcases mem_data_jsJoin sep ch (y :: xs) hj with hs | ⟨p, hp, hc⟩
        · exact Or.inl hs
        · exact Or.inr ⟨p, List.mem_cons_of_mem x hp, hc⟩

theorem jsSplit_jsJoin (c : Char) (sep : String) (hsep : sep.data = [c]) :
    ∀ (parts : List String), parts ≠ [] → (∀ p ∈ parts, c ∉ p.data) →
      jsSplit (jsJoin sep parts) c = parts
  | [], h, _ => absurd rfl h
  | [x], _, hfree => by
    have hx : c ∉ x.data := hfree x (List.mem_cons_self x [])
    show (splitCh c x.data).map (fun l => (⟨l⟩ : String)) = [x]
    rw [splitCh_no_sep c x.data hx]
    rfl
  | x :: y :: xs, _, hfree => by
    have hx : c ∉ x.data := hfree x (List.mem_cons_self x _)
    have hrec := jsSplit_jsJoin c sep hsep (y :: xs) (by simp)
      fun p hp => hfree p (List.mem_cons_of_mem x hp)
    show (splitCh c (jsJoin sep (x :: y :: xs)).data).map (fun l => (⟨l⟩ : String)) = _
    rw [jsJoin_data_cons, hsep, List.append_assoc, List.singleton_append,
      splitCh_append c x.data _ hx]
    rw [List.map_cons]
    exact congrArg (fun t => (⟨x.data⟩ : String) :: t) hrec

theorem mem_filteredData_ne_nil (s : SessionState) (r : List Cell)
    (h : r ∈ filteredData s) : r ≠ [] := by
  intro he
  subst he
  have h2 := (List.mem_filter.mp h).2
  rw [rowMatches_nil] at h2
  exact Bool.false_ne_true h2

theorem mem_filteredData_mem_data (s : SessionState) (r : List Cell)
    (h : r ∈ filteredData s) : r ∈ s.data := (List.mem_filter.mp h).1

/-- Claim C6 (amended): when the columns list is present and nonempty
and no column name or cell string contains a comma or a newline, the
export text splits on newline and then on comma back into exactly the
column names followed by the string forms of the projected rows. -/
theorem export_reparse (s : SessionState) (cols : List Cell)
    (hc : s.columns = some cols) (hcne : cols ≠ [])
    (hcols : ∀ x ∈ cols, ',' ∉ (cellToString x).data ∧ '\n' ∉ (cellToString x).data)
    (hcells : ∀ r ∈ s.data, ∀ x ∈ r, ',' ∉ (cellToString x).data ∧ '\n' ∉ (cellToString x).data) :
    ∃ text, csvContent s = some text
      ∧ reParse text
          = cols.map cellToString :: (filteredData s).map fun r => r.map cellToString := by
  have hcsv : csvContent s = some (jsJoin "\n" (jsJoin "," (cols.map cellToString)
      :: (filteredData s).map fun row => jsJoin "," (row.map cellToString))) := by
    simp [csvContent, hc]
  refine ⟨_, hcsv, ?_⟩
  have hcellsF : ∀ r ∈ filteredData s, ∀ x ∈ r,
      ',' ∉ (cellToString x).data ∧ '\n' ∉ (cellToString x).data :=
    fun r hr => hcells r (mem_filteredData_mem_data s r hr)
  have hfreeNL : ∀ p ∈ (jsJoin "," (cols.map cellToString)
      :: (filteredData s).map fun row => jsJoin "," (row.map cellToString)), '\n' ∉ p.data := by
    intro p hp hmem
    rcases List.mem_cons.mp hp with rfl | hp2
    · rcases mem_data_jsJoin "," '\n' _ hmem with hs | ⟨q, hq, hchar⟩
      · exact absurd hs (by decide)
      · obtain ⟨x, hx, rfl⟩ := List.mem_map.mp hq
        exact (hcols x hx).2 hchar
    · obtain ⟨r, hr, rfl⟩ := List.mem_map.mp hp2
      rcases mem_data_jsJoin "," '\n' _ hmem with hs | ⟨q, hq, hchar⟩
      · exact absurd hs (by decide)
      · obtain ⟨x, hx, rfl⟩ := List.mem_map.mp hq
        exact (hcellsF r hr x hx).2 hchar
  rw [reParse, jsSplit_jsJoin '\n' "\n" rfl _ (List.cons_ne_nil _ _) hfreeNL]
  rw [List.map_cons]
  rw [jsSplit_jsJoin ',' "," rfl (cols.map cellToString)
    (by simpa using hcne) (by
      intro p hp hmem
      obtain ⟨x, hx, rfl⟩ := List.mem_map.mp hp
      exact (hcols x hx).1 hmem)]
  rw [List.map_map]
  congr 1
  apply List.map_congr_left
  intro r hr
  exact jsSplit_jsJoin ',' "," rfl (r.map cellToString)
    (by simpa using mem_filteredData_ne_nil s r hr)
    (by
      intro p hp hmem
      obtain ⟨x, hx, rfl⟩ := List.mem_map.mp hp
      exact (hcellsF r hr x hx).1 hmem)

/-- A reachable state whose columns list is empty: the parse yielded a
grid whose first row has no cells. -/
def emptyColumnsState : SessionState :=
  { data := [[.str "a"]]
    columns := some []
    searchQuery := ""
    sortKey := none
    sortAsc := true
    loading := false }

/-- Claim C6 counterexample: with an empty columns list (so that no
column name contains a comma or newline, vacuously) the export text
starts with an empty first line, and re-parsing returns a one-element
first line `[""]` instead of the empty columns list, so the claimed
round trip fails at this state. -/
theorem export_reparse_counterexample :
    csvContent emptyColumnsState = some "\na"
    ∧ reParse "\na" ≠ (([] : List Cell).map cellToString)
        :: (filteredData emptyColumnsState).map fun r => r.map cellToString := by
  constructor
  · decide
  · decide

/-- Claim C10: a row with zero cells is never in the projection,
whatever the filter query (the `some` over its cells is false), and
consequently every data line of the export text is the comma-join of a
nonempty projected row — zero-cell rows contribute nothing to either. -/
theorem empty_row_never_projected (s : SessionState) :
    (([] : List Cell) ∈ filteredData s → False)
    ∧ (∀ cols, s.columns = some cols →
        ∃ lines, csvContent s = some (jsJoin "\n" (jsJoin "," (cols.map cellToString) :: lines))
          ∧ ∀ line ∈ lines, ∃ r, r ∈ filteredData s ∧ r ≠ []
              ∧ line = jsJoin "," (r.map cellToString)) := by
  constructor
  · intro h
    exact mem_filteredData_ne_nil s [] h rfl
  · intro cols hc
    refine ⟨(filteredData s).map fun row => jsJoin "," (row.map cellToString), ?_, ?_⟩
    · simp [csvContent, hc]
    · intro line hline
      obtain ⟨r, hr, hl⟩ := List.mem_map.mp hline
      exact ⟨r, hr, mem_filteredData_ne_nil s r hr, hl.symm⟩

/-- Outcome that one invocation of the file-picking chain will
eventually deliver: the user may cancel the dialog, otherwise the picked
content reaches the spreadsheet codec with result `parsed`. -/
inductive PickOutcome where
  | canceled
  | picked (parsed : Except String (List (List Cell)))

/-- Event-loop state for `pickFile`: the component state plus the queue
of suspended `pickFile` invocations, oldest first, each tagged with the
outcome its `await` will receive. -/
structure EvState where
  sess : SessionState
  pending : List PickOutcome

/-- Pressing the upload button (source lines 17-35 and 106): `pickFile`
runs synchronously up to its first `await` — it sets `loading` to true
and calls the document picker.  This happens unconditionally: neither
the button (which has no `disabled` prop) nor the body of `pickFile`
consults the `loading` flag. -/
def stepTap (o : PickOutcome) (st : EvState) : EvState :=
  { sess := { st.sess with loading := true }, pending := st.pending ++ [o] }

/-- The oldest suspended `pickFile` resumes and runs to completion: on
cancellation nothing further happens, otherwise the file content is read
and `processFile` applied; in both cases the `finally` block then clears
the `loading` flag (source lines 24-34). -/
def stepResume (st : EvState) : EvState :=
  match st.pending with
  | [] => st
  | o :: rest =>
    match o with
    | .canceled => { sess := { st.sess with loading := false }, pending := rest }
    | .picked parsed =>
      { sess := { (processFile st.sess parsed).1 with loading := false }, pending := rest }

/-- A tap that will successfully pick and parse the grid `g`. -/
def loadReq (g : List (List Cell)) : PickOutcome := .picked (.ok g)

/-- First tap: a load of dataset A starts from the idle initial state. -/
def doubleTapTrace1 : EvState := stepTap (loadReq [[.str "A"], [.str "1"]]) ⟨initialState, []⟩

/-- Second tap while the first load is still in flight. -/
def doubleTapTrace2 : EvState := stepTap (loadReq [[.str "B"], [.str "2"]]) doubleTapTrace1

/-- The first load completes while the second is still pending. -/
def doubleTapTrace3 : EvState := stepResume doubleTapTrace2

/-- Claim C9 counterexample: with one load in flight and the busy flag
set, a second load request is neither ignored nor queued behind the
first: it starts at once, so two loads are in flight together; when the
first completes, its `finally` clears the busy flag although the second
load is still in flight, and the two executions interleave. -/
theorem single_flight_counterexample :
    doubleTapTrace1.sess.loading = true
    ∧ doubleTapTrace1.pending.length = 1
    ∧ doubleTapTrace2.pending.length = 2
    ∧ doubleTapTrace3.sess.loading = false
    ∧ doubleTapTrace3.pending.length = 1
    ∧ doubleTapTrace3.sess.data = [[.str "1"]]
    ∧ (stepResume doubleTapTrace3).sess.data = [[.str "2"]] := by
  refine ⟨rfl, rfl, rfl, rfl, rfl, rfl, rfl⟩

/-- Claim C9 (amended): the busy flag does not gate loads.  A load
request always starts immediately — it sets the busy flag and joins the
in-flight queue whatever the current state, in particular while another
load is in flight — and any completing load clears the busy flag even
when other loads are still in flight. -/
theorem load_requests_always_start (st : EvState) (o : PickOutcome) :
    ((stepTap o st).pending = st.pending ++ [o]
      ∧ (stepTap o st).sess.loading = true)
    ∧ (st.pending ≠ [] → (stepResume st).sess.loading = false) := by
  refine ⟨⟨rfl, rfl⟩, ?_⟩
  intro h
  match hp : st.pending with
  | [] => exact absurd hp h
  | o2 :: rest => cases o2 <;> simp [stepResume, hp]

theorem load_requests_always_start_witness :
    ((stepTap (loadReq [[.str "B"], [.str "2"]]) doubleTapTrace1).pending
        = doubleTapTrace1.pending ++ [loadReq [[.str "B"], [.str "2"]]]
      ∧ (stepTap (loadReq [[.str "B"], [.str "2"]]) doubleTapTrace1).sess.loading = true)
    ∧ (stepResume doubleTapTrace2).sess.loading = false :=
  ⟨(load_requests_always_start doubleTapTrace1 (loadReq [[.str "B"], [.str "2"]])).1,
    (load_requests_always_start doubleTapTrace2 PickOutcome.canceled).2
      (List.cons_ne_nil _ _)⟩

/-- The locale comparison that declares all strings equivalent; it is
transitive and total, and is used to instantiate the sort theorems. -/
def lcZero : String → String → Int := fun _ _ => 0

/-- Two rows tied on the numeric Age column. -/
def numTieState : SessionState :=
  { data := [[.str "x", .num 7], [.str "y", .num 7]]
    columns := some [.str "Name", .str "Age"]
    searchQuery := ""
    sortKey := none
    sortAsc := true
    loading := false }

/-- Two rows with string cells in the Name column, tied under
`lcZero`. -/
def strTieState : SessionState :=
  { data := [[.str "u"], [.str "v"]]
    columns := some [.str "Name"]
    searchQuery := ""
    sortKey := none
    sortAsc := true
    loading := false }

theorem sort_numeric_else_locale_and_stable_witness :
    (jsCompare lcZero true (some (.num 3)) (some (.num 5)) = (if true then (3 : Int) - 5 else 5 - 3))
    ∧ (jsCompare lcZero true (some (.num 3)) (some (.num 5)) < 0 ↔ (3 : Int) < 5)
    ∧ (jsCompare lcZero true (some (.str "a")) (some (.num 5))
        = if true then lcZero (jsStringOpt (some (.str "a"))) (jsStringOpt (some (.num 5)))
          else lcZero (jsStringOpt (some (.num 5))) (jsStringOpt (some (.str "a"))))
    ∧ List.Sublist [[Cell.str "x", Cell.num 7], [Cell.str "y", Cell.num 7]]
        ((handleSort lcZero numTieState (Cell.str "Age")).data)
    ∧ List.Sublist [[Cell.str "u"], [Cell.str "v"]]
        ((handleSort lcZero strTieState (Cell.str "Name")).data) := by
  have T := sort_numeric_else_locale_and_stable lcZero
    (fun _ _ _ _ _ => le_refl 0) (fun _ _ => Or.inl (le_refl 0))
  refine ⟨T.1 3 5 true, T.2.1 3 5,
    T.2.2.1 (some (.str "a")) (some (.num 5)) rfl true, ?_, ?_⟩
  · exact T.2.2.2.1 numTieState [Cell.str "Name", Cell.str "Age"] (Cell.str "Age")
      [Cell.str "x", Cell.num 7] [Cell.str "y", Cell.num 7] rfl (by decide)
      (List.Sublist.refl _) (by decide)
  · exact T.2.2.2.2 strTieState [Cell.str "Name"] (Cell.str "Name")
      [Cell.str "u"] [Cell.str "v"] rfl (by decide)
      (List.Sublist.refl _) (by decide)

/-- The scenario state of the specification: Name/Age table with the
query "ann" set. -/
def searchDemoState : SessionState :=
  { data := [[.str "Ann", .num 25], [.str "Bob", .num 30]]
    columns := some [.str "Name", .str "Age"]
    searchQuery := "ann"
    sortKey := none
    sortAsc := true
    loading := false }

theorem projection_membership_witness :
    [Cell.str "Ann", Cell.num 25] ∈ searchDemoState.data
    ∧ ([Cell.str "Ann", Cell.num 25] ∈ filteredData searchDemoState
        ↔ ∃ cell ∈ [Cell.str "Ann", Cell.num 25],
          jsIncludes (jsToLower (cellToString cell)) (jsToLower searchDemoState.searchQuery) = true) :=
  ⟨by decide, projection_membership searchDemoState [Cell.str "Ann", Cell.num 25] (by decide)⟩

theorem export_reparse_witness :
    ∃ text, csvContent searchDemoState = some text
      ∧ reParse text = [Cell.str "Name", Cell.str "Age"].map cellToString
          :: (filteredData searchDemoState).map fun r => r.map cellToString :=
  export_reparse searchDemoState [Cell.str "Name", Cell.str "Age"] rfl
    (by decide) (by decide) (by decide)

theorem projection_after_load_witness :
    initialState.searchQuery = "" ∧ initialState.sortKey = none
    ∧ filteredData (processFile initialState (.ok [[.str "H"], [.str "v"]])).1 = [[.str "v"]] :=
  ⟨rfl, rfl, projection_after_load initialState [[.str "H"], [.str "v"]] rfl rfl (by decide)⟩

theorem empty_row_never_projected_witness :
    (([] : List Cell) ∈ filteredData searchDemoState → False)
    ∧ ∃ lines, csvContent searchDemoState
        = some (jsJoin "\n" (jsJoin "," ([Cell.str "Name", Cell.str "Age"].map cellToString) :: lines))
      ∧ ∀ line ∈ lines, ∃ r, r ∈ filteredData searchDemoState ∧ r ≠ []
          ∧ line = jsJoin "," (r.map cellToString) :=
  ⟨(empty_row_never_projected searchDemoState).1,
    (empty_row_never_projected searchDemoState).2 [Cell.str "Name", Cell.str "Age"] rfl⟩
